import Mathlib

/-!
Shallow embedding of the koishi-plugin-cat-raising message pipeline.

Text is modelled as lists of characters. Every JavaScript regular
expression used by the plugin is hand-compiled into an explicit matcher
that follows the leftmost-first backtracking semantics of the original
pattern. Reward amounts are modelled as exact rationals (the source uses
JS numbers; all amounts appearing in the claims are exactly
representable). The message handler and the deletion handler of the
final variant (src/unnamed/part_003) are embedded as pure state
transformers; the outcomes of the external calls (HTTP lookups, message
sends) are supplied by an oracle record.
-/

namespace CatRaising

/-! ## Character and list utilities -/

/-- ASCII digit, the JS regex class backslash-d. -/
def isDigitCh (c : Char) : Bool := '0' ≤ c && c ≤ '9'

/-- JS regex word character (backslash-w): ASCII letters, digits, underscore.
CJK characters are not word characters in JS. -/
def isWordCh (c : Char) : Bool :=
  isDigitCh c || ('a' ≤ c && c ≤ 'z') || ('A' ≤ c && c ≤ 'Z') || c == '_'

/-- Whitespace as matched by the JS regex class backslash-s (restricted to the
whitespace characters that can occur in the texts considered here). -/
def isSpaceCh (c : Char) : Bool :=
  c == ' ' || c == '\t' || c == '\n' || c == '\r' || c == '\x0b' || c == '\x0c'

/-- Longest prefix satisfying p, together with the remainder. -/
def spanCh (p : Char → Bool) : List Char → List Char × List Char
  | [] => ([], [])
  | c :: cs => if p c then let r := spanCh p cs; (c :: r.1, r.2) else ([], c :: cs)

/-- Does the text start with the given literal pattern? -/
def startsWithL : List Char → List Char → Bool
  | [], _ => true
  | _ :: _, [] => false
  | a :: as, b :: bs => a == b && startsWithL as bs

/-- String.prototype.includes for a non-empty literal pattern. -/
def containsSub (pat : List Char) (cs : List Char) : Bool :=
  go (cs.length + 1) cs
where
  go : Nat → List Char → Bool
    | 0, _ => false
    | _ + 1, [] => startsWithL pat []
    | f + 1, c :: t => startsWithL pat (c :: t) || go f t

/-- String.prototype.trim. -/
def trimChars (cs : List Char) : List Char :=
  ((cs.dropWhile isSpaceCh).reverse.dropWhile isSpaceCh).reverse

/-- Split on newline characters, as String.prototype.split with a newline. -/
def splitLines : List Char → List (List Char)
  | [] => [[]]
  | c :: cs =>
    match splitLines cs with
    | [] => [[]]
    | l :: ls => if c == '\n' then [] :: l :: ls else (c :: l) :: ls

/-- Value of a decimal digit string (leading zeros allowed), as parseInt. -/
def digitsToNat (cs : List Char) : Nat := cs.foldl (fun n c => n * 10 + (c.toNat - 48)) 0

/-- Decimal representation of a natural number, as JS String(n). -/
def natToDigits (n : Nat) : List Char := go (n + 1) n
where
  go : Nat → Nat → List Char
    | 0, _ => []
    | f + 1, n => if n < 10 then [Char.ofNat (48 + n)] else go f (n / 10) ++ [Char.ofNat (48 + n % 10)]

/-- String.prototype.padStart(2, zero). -/
def pad2 (cs : List Char) : List Char :=
  if cs.length < 2 then List.replicate (2 - cs.length) '0' ++ cs else cs

/-- Is the head of the remainder a word character (used for trailing
word-boundary tests)? -/
def isWordHead : List Char → Bool
  | [] => false
  | c :: _ => isWordCh c

/-- Is the head of the remainder a digit (used for lookahead tests)? -/
def isDigitHead : List Char → Bool
  | [] => false
  | c :: _ => isDigitCh c

/-- Is the character before the current position a word character?
none means start of text. -/
def isWordOpt : Option Char → Bool
  | none => false
  | some c => isWordCh c

/-- First result of f over a list. -/
def findSomeL (f : α → Option β) : List α → Option β
  | [] => none
  | a :: as => match f a with | some b => some b | none => findSomeL f as

/-- First match of a position matcher anywhere in the text, scanning left to
right; the matcher receives the previous character (for word boundaries)
and the remaining text. -/
def scanPos (f : Option Char → List Char → Option α) : Nat → Option Char → List Char → Option α
  | 0, _, _ => none
  | _ + 1, prev, [] => f prev []
  | fl + 1, prev, c :: cs =>
    match f prev (c :: cs) with
    | some r => some r
    | none => scanPos f fl (some c) cs

/-- String.prototype.match without the global flag: first leftmost match. -/
def findMatch (f : Option Char → List Char → Option α) (cs : List Char) : Option α :=
  scanPos f (cs.length + 1) none cs

/-- All matches under the global flag: repeatedly take the leftmost match and
resume after it. The matcher must consume at least one character and
reports the new previous character together with the remaining text. -/
def matchAllGo (f : Option Char → List Char → Option (α × Option Char × List Char)) :
    Nat → Option Char → List Char → List α
  | 0, _, _ => []
  | _ + 1, _, [] => []
  | fl + 1, prev, c :: cs =>
    match f prev (c :: cs) with
    | some (r, p2, rest) => r :: matchAllGo f fl p2 rest
    | none => matchAllGo f fl (some c) cs

/-- All matches of a position matcher, in order, non-overlapping. -/
def matchAll (f : Option Char → List Char → Option (α × Option Char × List Char))
    (cs : List Char) : List α :=
  matchAllGo f (cs.length + 1) none cs

/-- The previous character after consuming part of orig down to rest. -/
def lastConsumed (orig rest : List Char) (prev : Option Char) : Option Char :=
  let k := orig.length - rest.length
  if k = 0 then prev else (orig.take k).getLast?

/-! ## Chinese numeral normalizer (preprocessChineseNumerals) -/

/-- The digit table of preprocessChineseNumerals. -/
def numMapVal (c : Char) : Option Nat :=
  if c == '零' then some 0 else if c == '一' then some 1 else if c == '二' then some 2
  else if c == '两' then some 2 else if c == '三' then some 3 else if c == '四' then some 4
  else if c == '五' then some 5 else if c == '六' then some 6 else if c == '七' then some 7
  else if c == '八' then some 8 else if c == '九' then some 9 else none

/-- The magnitude table of preprocessChineseNumerals; the boolean is the
isSection flag. -/
def unitMapVal (c : Char) : Option (Nat × Bool) :=
  if c == '十' then some (10, false) else if c == '百' then some (100, false)
  else if c == '千' then some (1000, false) else if c == '万' then some (10000, true)
  else if c == '亿' then some (100000000, true) else none

/-- The character class of the numeral-run regex; it coincides with the union
of the two tables. -/
def isNumeralChar (c : Char) : Bool := (numMapVal c).isSome || (unitMapVal c).isSome

/-- The accumulator loop over one numeral run: total, sectionTotal and
currentNum evolve exactly as in the source; a magnitude of ten with no
pending digit counts as one. -/
def runValueGo : List Char → Nat → Nat → Nat → Nat
  | [], total, sectionTotal, currentNum => total + sectionTotal + currentNum
  | c :: cs, total, s, cur =>
    match numMapVal c with
    | some d => runValueGo cs total s d
    | none =>
      match unitMapVal c with
      | some (v, isSec) =>
        let cur2 := if v == 10 && cur == 0 then 1 else cur
        if isSec then runValueGo cs (total + (s + cur2 * v)) 0 0
        else runValueGo cs total (s + cur2 * v) 0
      | none => runValueGo cs total s cur

/-- Numeric value of one maximal numeral run. -/
def runValue (cs : List Char) : Nat := runValueGo cs 0 0 0

/-- Replacement for one run in the src/index.ts variant: a single character
is kept unchanged only when it is in neither table (which cannot happen
for characters of the class, the guard testing against undefined). -/
def convertRunIdx (cs : List Char) : List Char :=
  match cs with
  | [c] => if (numMapVal c).isNone && (unitMapVal c).isNone then [c] else natToDigits (runValue [c])
  | _ => natToDigits (runValue cs)

/-- Replacement for one run in the part_003 variant: the guard tests
JS truthiness, so a lone zero digit (table value 0) is kept unchanged. -/
def convertRunP3 (cs : List Char) : List Char :=
  match cs with
  | [c] =>
    if (match numMapVal c with | some d => d == 0 | none => true) && (unitMapVal c).isNone
    then [c] else natToDigits (runValue [c])
  | _ => natToDigits (runValue cs)

/-- Replace every maximal run of numeral-class characters using conv. -/
def preprocessGo (conv : List Char → List Char) : Nat → List Char → List Char
  | 0, cs => cs
  | _ + 1, [] => []
  | f + 1, c :: cs =>
    if isNumeralChar c then
      let r := spanCh isNumeralChar (c :: cs)
      conv r.1 ++ preprocessGo conv f r.2
    else c :: preprocessGo conv f cs

/-- preprocessChineseNumerals of src/src/index.ts (final index.ts variant). -/
def preprocessChineseNumerals (text : List Char) : List Char :=
  preprocessGo convertRunIdx (text.length + 1) text

/-- preprocessChineseNumerals of src/unnamed/part_003 (truthiness guard). -/
def preprocessChineseNumeralsP3 (text : List Char) : List Char :=
  preprocessGo convertRunP3 (text.length + 1) text

/-! ## Room-id extractor (extractAllRoomIds, part_003 variant) -/

/-- Remove markup spans: one step of replacing the regex
angle-bracket, one or more non-closing characters, closing bracket
by the empty string. At an opening bracket, the span extends to the first
closing bracket provided at least one character lies between. -/
def cutTag : List Char → Option (List Char)
  | [] => none
  | '>' :: _ => none
  | c :: cs => go (c :: cs)
where
  go : List Char → Option (List Char)
    | [] => none
    | '>' :: rest => some rest
    | _ :: rest => go rest

/-- Remove all markup spans from the text (the sanitizedText step). -/
def sanitizeTags (cs : List Char) : List Char := go (cs.length + 1) cs
where
  go : Nat → List Char → List Char
    | 0, cs => cs
    | _ + 1, [] => []
    | f + 1, c :: cs =>
      if c == '<' then
        match cutTag cs with
        | some rest => go f rest
        | none => c :: go f cs
      else c :: go f cs

/-- The three label literals of the labelled room-number pattern. -/
def roomLabels : List (List Char) := ["播间号".toList, "房间号".toList, "直播间".toList]

/-- Separator class of the labelled pattern: colon, fullwidth colon or
whitespace. -/
def isSepRoom (c : Char) : Bool := c == ':' || c == '：' || isSpaceCh c

/-- Position matcher for the labelled pattern: one of the labels, a run of
separators, then three to fifteen digits (greedy). Returns the captured
digits, the new previous character and the remaining text. -/
def tryLabeledAt (_prev : Option Char) (cs : List Char) :
    Option (List Char × Option Char × List Char) :=
  go roomLabels
where
  go : List (List Char) → Option (List Char × Option Char × List Char)
    | [] => none
    | lb :: rest =>
      if startsWithL lb cs then
        let cs1 := cs.drop lb.length
        let seps := spanCh isSepRoom cs1
        let ds := spanCh isDigitCh seps.2
        let d := ds.1.take 15
        if 3 ≤ d.length then some (d, d.getLast?, seps.2.drop d.length)
        else go rest
      else go rest

/-- Position matcher for the generic pattern: a standalone digit sequence of
length six to fifteen delimited by word boundaries. -/
def tryGenericAt (prev : Option Char) (cs : List Char) :
    Option (List Char × Option Char × List Char) :=
  match cs with
  | [] => none
  | c :: _ =>
    if isDigitCh c && !(isWordOpt prev) then
      let ds := spanCh isDigitCh cs
      if 6 ≤ ds.1.length && ds.1.length ≤ 15 && !(isWordHead ds.2) then
        some (ds.1, ds.1.getLast?, ds.2)
      else none
    else none

/-- Insert into the accumulator unless already present (Set.add with
insertion order preserved). -/
def addUnique (acc : List (List Char)) (x : List Char) : List (List Char) :=
  if acc.any (fun y => y == x) then acc else acc ++ [x]

/-- extractAllRoomIds of part_003: strip markup, run the labelled pattern and
the generic pattern, and return the distinct matches in insertion order. -/
def extractAllRoomIds (text : List Char) : List (List Char) :=
  let s := sanitizeTags text
  (matchAll tryLabeledAt s ++ matchAll tryGenericAt s).foldl addUnique []

/-! ## Time extractor (extractDateTime, part_003 variant) -/

/-- The candidate splits for a greedy one-or-two digit group, longest first;
the matcher tries them in this backtracking order. -/
def take2or1Digits : List Char → List (List Char × List Char)
  | [] => []
  | [a] => if isDigitCh a then [([a], [])] else []
  | a :: b :: t =>
    if isDigitCh a && isDigitCh b then [([a, b], t), ([a], b :: t)]
    else if isDigitCh a then [([a], b :: t)] else []

/-- Pattern one: month-day (digits, optional spaces, month word or dot,
optional spaces, digits, optional day word). Result month-day label. -/
def tryMonthDayAt (_prev : Option Char) (cs : List Char) : Option (List Char) :=
  findSomeL (fun s =>
    let r2 := spanCh isSpaceCh s.2
    match r2.2 with
    | c :: r3 =>
      if c == '月' || c == '.' then
        let r4 := spanCh isSpaceCh r3
        match take2or1Digits r4.2 with
        | (g2, _) :: _ => some (s.1 ++ ['月'] ++ g2 ++ ['日'])
        | [] => none
      else none
    | [] => none) (take2or1Digits cs)

/-- Pattern two: every-night hour (part_003 accepts both hour words). -/
def tryEveryNightAt (_prev : Option Char) (cs : List Char) : Option (List Char) :=
  if startsWithL "每晚".toList cs then
    let r1 := spanCh isSpaceCh (cs.drop 2)
    findSomeL (fun s =>
      let r3 := spanCh isSpaceCh s.2
      match r3.2 with
      | c :: _ => if c == '点' || c == '时' then
          some ("每晚 ".toList ++ pad2 s.1 ++ ":00".toList) else none
      | [] => none) (take2or1Digits r1.2)
  else none

/-- Pattern three: month with early, mid or late part; the full matched
substring (with its internal spacing) is returned verbatim. -/
def tryMonthPartAt (_prev : Option Char) (cs : List Char) : Option (List Char) :=
  findSomeL (fun s =>
    let sp1 := spanCh isSpaceCh s.2
    match sp1.2 with
    | '月' :: r3 =>
      let sp2 := spanCh isSpaceCh r3
      match sp2.2 with
      | c :: '旬' :: _ =>
        if c == '上' || c == '中' || c == '下' then
          some (s.1 ++ sp1.1 ++ ['月'] ++ sp2.1 ++ [c, '旬'])
        else none
      | _ => none
    | _ => none) (take2or1Digits cs)

/-- Separator class of the hour-minute pattern. -/
def isHourSep (c : Char) : Bool := c == ':' || c == '：' || c == '.' || c == '点' || c == '时'

/-- Pattern four: hour, separator, optional spaces, minute; both zero
padded. -/
def tryHourMinuteAt (_prev : Option Char) (cs : List Char) : Option (List Char) :=
  findSomeL (fun s =>
    match s.2 with
    | c :: r2 =>
      if isHourSep c then
        let r3 := spanCh isSpaceCh r2
        match take2or1Digits r3.2 with
        | (g2, _) :: _ => some (pad2 s.1 ++ [':'] ++ pad2 g2)
        | [] => none
      else none
    | [] => none) (take2or1Digits cs)

/-- Pattern five: half past an hour. -/
def tryHalfPastAt (_prev : Option Char) (cs : List Char) : Option (List Char) :=
  findSomeL (fun s =>
    let sp1 := spanCh isSpaceCh s.2
    match sp1.2 with
    | '点' :: r3 =>
      let sp2 := spanCh isSpaceCh r3
      match sp2.2 with
      | '半' :: _ => some (pad2 s.1 ++ ":30".toList)
      | _ => none
    | _ => none) (take2or1Digits cs)

/-- Pattern six: a lone hour behind a word boundary, followed by a dot or an
hour word that is not followed by another digit. -/
def tryLoneHourAt (prev : Option Char) (cs : List Char) : Option (List Char) :=
  if isWordOpt prev then none
  else
    findSomeL (fun s =>
      let sp := spanCh isSpaceCh s.2
      match sp.2 with
      | c :: r3 =>
        if (c == '.' || c == '点' || c == '时') && !(isDigitHead r3) then
          some (pad2 s.1 ++ ":00".toList)
        else none
      | [] => none) (take2or1Digits cs)

/-- Pattern seven, matching part: digits followed by the minute word;
returns the raw digit group. -/
def tryMinutesAt (_prev : Option Char) (cs : List Char) : Option (List Char) :=
  findSomeL (fun s =>
    let sp := spanCh isSpaceCh s.2
    match sp.2 with
    | '分' :: _ => some s.1
    | _ => none) (take2or1Digits cs)

/-- Line matchers for the first six patterns. -/
def matchMonthDay (line : List Char) : Option (List Char) := findMatch tryMonthDayAt line

def matchEveryNight (line : List Char) : Option (List Char) := findMatch tryEveryNightAt line

def matchMonthPart (line : List Char) : Option (List Char) := findMatch tryMonthPartAt line

def matchHourMinute (line : List Char) : Option (List Char) := findMatch tryHourMinuteAt line

def matchHalfPast (line : List Char) : Option (List Char) := findMatch tryHalfPastAt line

def matchLoneHour (line : List Char) : Option (List Char) := findMatch tryLoneHourAt line

/-- Pattern seven: minutes only; the hour is inferred from the wall clock
passed in as nowH and nowM, rolling to the next hour (mod 24) when the
current minute has already passed the stated one. -/
def matchMinutesOnly (nowH nowM : Nat) (line : List Char) : Option (List Char) :=
  (findMatch tryMinutesAt line).map (fun g =>
    let minuteVal := digitsToNat g
    let hourVal := if nowM > minuteVal then nowH + 1 else nowH
    pad2 (natToDigits (hourVal % 24)) ++ [':'] ++ pad2 g)

/-- Pattern eight: any line segment containing one of the keyword words is
returned trimmed (the dot in the pattern does not cross newlines, so the
newline-free segment around the first keyword is matched). -/
def matchKeywordLine (line : List Char) : Option (List Char) :=
  ((splitLines line).find? (fun seg =>
    containsSub "生日".toList seg || containsSub "周年".toList seg ||
    containsSub "新衣".toList seg || containsSub "活动".toList seg)).map trimChars

/-- extractDateTime of part_003: the eight patterns tried in order, first
match wins. -/
def extractDateTime (nowH nowM : Nat) (line : List Char) : Option (List Char) :=
  match matchMonthDay line with
  | some r => some r
  | none =>
  match matchEveryNight line with
  | some r => some r
  | none =>
  match matchMonthPart line with
  | some r => some r
  | none =>
  match matchHourMinute line with
  | some r => some r
  | none =>
  match matchHalfPast line with
  | some r => some r
  | none =>
  match matchLoneHour line with
  | some r => some r
  | none =>
  match matchMinutesOnly nowH nowM line with
  | some r => some r
  | none => matchKeywordLine line

/-- The ordered pattern list of the time extractor. -/
def dtPatterns (nowH nowM : Nat) : List (List Char → Option (List Char)) :=
  [matchMonthDay, matchEveryNight, matchMonthPart, matchHourMinute,
   matchHalfPast, matchLoneHour, matchMinutesOnly nowH nowM, matchKeywordLine]

/-- First non-null result over a list of matchers. -/
def firstSome {α β : Type} (fs : List (α → Option β)) (a : α) : Option β :=
  findSomeL (fun f => f a) fs

/-! ## Reward extractor (extractRewards) -/

/-- An announced reward: amount and eligibility condition. -/
structure Reward where
  amount : ℚ
  condition : List Char
deriving DecidableEq

/-- A parsed event: time label and non-empty reward list. -/
structure ParsedEvent where
  dateTime : List Char
  rewards : List Reward
deriving DecidableEq

/-- The amount alternation: either digits, optional dot and more digits,
a ten-thousand suffix letter and an optional plus (first alternative), or
a standalone three-to-five digit integer between word boundaries (second
alternative). Returns the captured amount token and the remaining text. -/
def parseAmountAt (prev : Option Char) (cs : List Char) : Option (List Char × List Char) :=
  match alt1 with
  | some r => some r
  | none => alt2
where
  alt1 : Option (List Char × List Char) :=
    let d1 := spanCh isDigitCh cs
    if d1.1.isEmpty then none
    else
      let dotRest : List Char × List Char :=
        match d1.2 with
        | '.' :: t => (['.'], t)
        | _ => ([], d1.2)
      let d2 := spanCh isDigitCh dotRest.2
      match d2.2 with
      | c :: r4 =>
        if c == 'w' || c == 'W' then
          match r4 with
          | '+' :: r5 => some (d1.1 ++ dotRest.1 ++ d2.1 ++ [c, '+'], r5)
          | _ => some (d1.1 ++ dotRest.1 ++ d2.1 ++ [c], r4)
        else none
      | [] => none
  alt2 : Option (List Char × List Char) :=
    if isWordOpt prev then none
    else
      let ds := spanCh isDigitCh cs
      if 3 ≤ ds.1.length && ds.1.length ≤ 5 && !(isWordHead ds.2) then
        some (ds.1, ds.2)
      else none

/-- The optional give verb followed by optional spaces, then the amount;
the engine backtracks to the amount alone when the verb path fails. -/
def parseAfterVerb (prev : Option Char) (cs : List Char) : Option (List Char × List Char) :=
  match cs with
  | '发' :: t =>
    let sp := spanCh isSpaceCh t
    match parseAmountAt (if sp.1.isEmpty then some '发' else sp.1.getLast?) sp.2 with
    | some r => some r
    | none => parseAmountAt prev cs
  | _ => parseAmountAt prev cs

/-- The optional level-condition group: one or two digits (longest first),
optional spaces, the level word, an optional badge word and optional
spaces. Returns the captured level digits, the new previous character and
the remaining text. -/
def parseLevelAt (cs : List Char) : Option (List Char × Option Char × List Char) :=
  findSomeL (fun s =>
    let sp1 := spanCh isSpaceCh s.2
    match sp1.2 with
    | '级' :: r3 =>
      let afterBadge : List Char :=
        if startsWithL "灯牌".toList r3 then r3.drop 2 else r3
      let sp2 := spanCh isSpaceCh afterBadge
      let p : Option Char :=
        match sp2.1.getLast? with
        | some c => some c
        | none =>
          if startsWithL "灯牌".toList r3 then some '牌' else some '级'
      some (s.1, p, sp2.2)
    | _ => none) (take2or1Digits cs)

/-- The optional reward-unit suffix after the amount. -/
def dropUnitSuffix (cs : List Char) : List Char :=
  if startsWithL "神金".toList cs then cs.drop 2
  else if startsWithL "钻石".toList cs then cs.drop 2
  else if startsWithL "猫猫钻".toList cs then cs.drop 3
  else cs

/-- Position matcher for the full reward pattern. Returns the optional level
group, the amount token, the new previous character and the remaining
text (one full regex match). -/
def tryRewardAt (prev : Option Char) (cs : List Char) :
    Option ((Option (List Char) × List Char) × Option Char × List Char) :=
  let noLevel : Option ((Option (List Char) × List Char) × Option Char × List Char) :=
    match parseAfterVerb prev cs with
    | some (g2, cs3) =>
      let cs4 := dropUnitSuffix cs3
      some ((none, g2), lastConsumed cs cs4 prev, cs4)
    | none => none
  match parseLevelAt cs with
  | some (g1, p2, cs2) =>
    match parseAfterVerb p2 cs2 with
    | some (g2, cs3) =>
      let cs4 := dropUnitSuffix cs3
      some ((some g1, g2), lastConsumed cs cs4 prev, cs4)
    | none => noLevel
  | none => noLevel

/-- Remove the first ten-thousand suffix letter, as the replace call with a
plain string pattern. -/
def removeFirstW : List Char → List Char
  | [] => []
  | c :: cs => if c == 'w' then cs else c :: removeFirstW cs

/-- parseFloat on a token of shape digits, optional dot, digits, optional
trailing plus: mantissa and fractional length; none models NaN. -/
def parseFloatQ (cs : List Char) : Option ℚ :=
  let d1 := spanCh isDigitCh cs
  if d1.1.isEmpty then none
  else
    match d1.2 with
    | '.' :: t =>
      let d2 := spanCh isDigitCh t
      some (mkRat (digitsToNat (d1.1 ++ d2.1)) (10 ^ d2.1.length))
    | _ => some (mkRat (digitsToNat d1.1) 1)

/-- Amount of a ten-thousand token, exact: parseFloat of the token with the
suffix letter removed, times ten thousand. -/
def parseFloatTimes10000 (cs : List Char) : Option ℚ :=
  let d1 := spanCh isDigitCh cs
  if d1.1.isEmpty then none
  else
    match d1.2 with
    | '.' :: t =>
      let d2 := spanCh isDigitCh t
      some (mkRat (digitsToNat (d1.1 ++ d2.1) * 10000) (10 ^ d2.1.length))
    | _ => some (mkRat (digitsToNat d1.1 * 10000) 1)

/-- Build one Reward from the two capture groups: the condition label from
the level group, the amount from the token (lowercased; a ten-thousand
suffix multiplies by ten thousand); amounts that are not finite positive
numbers are discarded. -/
def mkReward (g1 : Option (List Char)) (g2 : List Char) : Option Reward :=
  let condition : List Char :=
    match g1 with
    | some lv => lv ++ "级灯牌".toList
    | none => "无限制".toList
  let low := g2.map (fun c => if c == 'W' then 'w' else c)
  let amount? : Option ℚ :=
    if low.any (fun c => c == 'w') then parseFloatTimes10000 (removeFirstW low)
    else parseFloatQ low
  match amount? with
  | some a => if 0 < a then some ⟨a, condition⟩ else none
  | none => none

/-- extractRewards: every qualifying match of the reward pattern on the
line, in order, one Reward per match. -/
def extractRewards (line : List Char) : List Reward :=
  (matchAll tryRewardAt line).filterMap (fun g => mkReward g.1 g.2)

/-! ## Event parser (parseEventFromText, part_003 variant) -/

/-- The unknown-time sentinel. -/
def unknownLabel : List Char := "时间未知".toList

/-- parseEventFromText: split into non-blank lines, take the first line with
a time label (scanning stops at the first hit), gather the rewards of
every line; an event exists only when some reward was found. -/
def parseEventFromText (nowH nowM : Nat) (text : List Char) : Option ParsedEvent :=
  let lines := (splitLines text).filter (fun l => !(trimChars l).isEmpty)
  let dt := lines.findSome? (extractDateTime nowH nowM)
  let allRewards := (lines.map extractRewards).flatten
  if allRewards.isEmpty then none
  else some ⟨dt.getD unknownLabel, allRewards⟩

/-! ## Plugin state and handlers (apply of part_003) -/

/-- One monitored group and its helper-message toggle. -/
structure GroupCfg where
  groupId : List Char
  sendHelperMessages : Bool
deriving DecidableEq

/-- The configuration fields the handlers read. -/
structure Config where
  monitorGroups : List GroupCfg
  historySize : Nat
deriving DecidableEq

/-- An inbound message event as seen by the handler: id, channel, raw
content and stripped content. -/
structure Msg where
  messageId : List Char
  channelId : List Char
  content : List Char
  stripped : List Char
deriving DecidableEq

/-- The first external lookup response: status code and the optional uid
field (none models a missing data or uid field). -/
structure RoomResp where
  code : Int
  uid : Option Int
deriving DecidableEq

/-- The second external lookup response: status code and the optional video
count. -/
structure StatsResp where
  code : Int
  video : Option Int
deriving DecidableEq

/-- Outcomes of the external calls of one message-handler run. none on the
lookups models a transport error; none on warnSend models a failed or
empty send (caught); none on helperSend models a send that throws (this
call is not guarded in part_003, so the handler stops there); none on
forwardSend models a failed forward (caught, no record). -/
structure Oracle where
  roomResp : Option RoomResp
  statsResp : Option StatsResp
  warnSend : Option (List Char)
  helperSend : Option (Option (List Char))
  forwardSend : Option (Option (List Char))
  nowH : Nat
  nowM : Nat
deriving DecidableEq

/-- A forwarded-history record (ForwardedEntry of part_003). -/
structure ForwardedEntry where
  originalMessageId : List Char
  forwardedMessageId : Option (List Char)
  helperMessageId : Option (List Char)
  roomId : List Char
  dateTime : List Char
deriving DecidableEq

/-- The mutable plugin state: the bounded forwarded history and the
warning-message map (insertion-ordered key-value list, as a JS Map). -/
structure PluginState where
  forwardedHistory : List ForwardedEntry
  warningMap : List (List Char × List Char)
deriving DecidableEq

/-- The empty state at plugin start. -/
def initialState : PluginState := ⟨[], []⟩

/-- Observable effects of one message-handler run. -/
structure Effects where
  sentWarning : Bool
  attemptedFetch : Bool
  sentHelper : Bool
  attemptedForward : Bool
  recorded : Bool
deriving DecidableEq

/-- No observable effect. -/
def noEffects : Effects := ⟨false, false, false, false, false⟩

/-- Map.set of a JS Map: update in place when the key exists, append
otherwise. -/
def mapSet (m : List (List Char × List Char)) (k v : List Char) :
    List (List Char × List Char) :=
  if m.any (fun p => p.1 == k) then m.map (fun p => if p.1 == k then (k, v) else p)
  else m ++ [(k, v)]

/-- Map.has. -/
def mapHasKey (m : List (List Char × List Char)) (k : List Char) : Bool :=
  m.any (fun p => p.1 == k)

/-- Map.delete. -/
def mapDelete (m : List (List Char × List Char)) (k : List Char) :
    List (List Char × List Char) :=
  m.filter (fun p => !(p.1 == k))

/-- The history append of part_003: push, then shift when the length
exceeds the configured capacity. -/
def recordEntry (n : Nat) (h : List ForwardedEntry) (e : ForwardedEntry) :
    List ForwardedEntry :=
  if n < (h ++ [e]).length then (h ++ [e]).tail else h ++ [e]

/-- fetchBilibiliInfo of part_003: the first lookup must yield a truthy uid
(the status code is not consulted), the second must yield a defined video
count; any failure is caught and surfaces as none. -/
def fetchBilibiliInfo (o : Oracle) : Option Int :=
  match o.roomResp with
  | none => none
  | some r =>
    match r.uid with
    | none => none
    | some uid =>
      if uid = 0 then none
      else
        match o.statsResp with
        | none => none
        | some s => s.video

/-- groupConfig lookup over the monitor list. -/
def findGroupCfg (cfg : Config) (ch : List Char) : Option GroupCfg :=
  cfg.monitorGroups.find? (fun g => g.groupId == ch)

/-- Hard rejection keywords of part_003. -/
def hardRejectTest (cs : List Char) : Bool :=
  containsSub "发言榜单".toList cs || containsSub "投稿数:".toList cs

/-- Soft rejection keywords. -/
def softRejectTest (cs : List Char) : Bool :=
  containsSub "签到".toList cs || containsSub "打卡".toList cs

/-- Override keywords. -/
def overrideTest (cs : List Char) : Bool :=
  containsSub "神金".toList cs || containsSub "发".toList cs

/-- A standalone three-to-five digit number between word boundaries occurs
in the text (one alternative of the trigger pattern). -/
def hasBare35 (cs : List Char) : Bool :=
  (findMatch (fun prev rest =>
    if isWordOpt prev then (none : Option Unit)
    else
      match rest with
      | c :: _ =>
        if isDigitCh c then
          let ds := spanCh isDigitCh rest
          if 3 ≤ ds.1.length && ds.1.length ≤ 5 && !(isWordHead ds.2) then some () else none
        else none
      | [] => none) cs).isSome

/-- The trigger heuristic of part_003 (TRIGGER_REGEX). -/
def triggerTest (cs : List Char) : Bool :=
  containsSub "神金".toList cs || containsSub "发".toList cs ||
  containsSub "掉落".toList cs || containsSub "猫猫钻".toList cs ||
  cs.any (fun c => c == 'w' || c == 'W') || hasBare35 cs ||
  containsSub "一千".toList cs || containsSub "一百".toList cs ||
  containsSub "十".toList cs || containsSub "九".toList cs ||
  containsSub "八".toList cs || containsSub "七".toList cs ||
  containsSub "六".toList cs || containsSub "五".toList cs ||
  containsSub "四".toList cs || containsSub "三".toList cs ||
  containsSub "两".toList cs || containsSub "二".toList cs ||
  containsSub "一".toList cs

/-- The strong-context cue of part_003. -/
def strongCtxTest (cs : List Char) : Bool :=
  containsSub "神金".toList cs || containsSub "发".toList cs ||
  cs.any (fun c => c == 'w' || c == 'W')

/-- The state-independent part of the admission chain of part_003, from the
emptiness check to the weak-context gate: returns the room id and the
event time label when every gate passes (the group lookup is done by the
caller, the duplicate check is done against the state). -/
def gateRoomAndEvent (m : Msg) (nowH nowM : Nat) : Option (List Char × List Char) :=
  if (trimChars m.stripped).isEmpty then none
  else if hardRejectTest m.stripped then none
  else if !(triggerTest m.stripped) then none
  else
    match extractAllRoomIds m.content with
    | [roomId] =>
      let pre := preprocessChineseNumeralsP3 m.stripped
      if softRejectTest pre && !(overrideTest pre) then none
      else
        match parseEventFromText nowH nowM pre with
        | none => none
        | some ev =>
          if !(strongCtxTest pre) && ev.dateTime == unknownLabel then none
          else some (roomId, ev.dateTime)
    | _ => none

/-- The forward-and-record tail of the message handler: attempt the forward;
on success push the entry and evict by capacity, on a caught failure
leave the state unchanged. -/
def sendForward (cfg : Config) (st : PluginState) (m : Msg) (o : Oracle)
    (roomId dateTime : List Char) (hid : Option (List Char)) (helped : Bool) :
    PluginState × Effects :=
  match o.forwardSend with
  | none => (st, ⟨false, true, helped, true, false⟩)
  | some fid =>
    let entry : ForwardedEntry := ⟨m.messageId, fid, hid, roomId, dateTime⟩
    ({ st with forwardedHistory := recordEntry cfg.historySize st.forwardedHistory entry },
     ⟨false, true, helped, true, true⟩)

/-- The message handler of part_003 as a state transformer. -/
def onMessage (cfg : Config) (st : PluginState) (m : Msg) (o : Oracle) :
    PluginState × Effects :=
  match findGroupCfg cfg m.channelId with
  | none => (st, noEffects)
  | some gc =>
    match gateRoomAndEvent m o.nowH o.nowM with
    | none => (st, noEffects)
    | some (roomId, dateTime) =>
      if st.forwardedHistory.any (fun e => e.roomId == roomId && e.dateTime == dateTime) then
        if gc.sendHelperMessages then
          match o.warnSend with
          | some wid =>
            ({ st with warningMap := mapSet st.warningMap m.messageId wid },
             { noEffects with sentWarning := true })
          | none => (st, { noEffects with sentWarning := true })
        else (st, noEffects)
      else
        match fetchBilibiliInfo o with
        | none => (st, { noEffects with attemptedFetch := true })
        | some _ =>
          if gc.sendHelperMessages then
            match o.helperSend with
            | none => (st, { noEffects with attemptedFetch := true })
            | some hid => sendForward cfg st m o roomId dateTime hid true
          else sendForward cfg st m o roomId dateTime none false

/-- Observable effects of one deletion-handler run: which retractions were
attempted (their outcomes are caught and never affect the state). -/
structure DelEffects where
  attemptedHelperDelete : Bool
  attemptedForwardDelete : Bool
  attemptedWarnDelete : Bool
deriving DecidableEq

/-- No retraction attempted. -/
def noDelEffects : DelEffects := ⟨false, false, false⟩

/-- findIndex plus splice: remove the first entry with the given source id,
returning it and the remaining history. -/
def removeFirstById : List ForwardedEntry → List Char → Option (ForwardedEntry × List ForwardedEntry)
  | [], _ => none
  | e :: es, mid =>
    if e.originalMessageId == mid then some (e, es)
    else
      match removeFirstById es mid with
      | none => none
      | some (f, es2) => some (f, e :: es2)

/-- The deletion handler of part_003: on a monitored channel, case one
retracts (helper if present, then forwarded copy; the attempts are
independent, each outcome caught) and removes the first matching ledger
entry in a finally block; case two, run afterwards, retracts a pending
warning and removes its mapping entry in a finally block. -/
def onDeleted (cfg : Config) (st : PluginState) (ch mid : List Char) :
    PluginState × DelEffects :=
  if cfg.monitorGroups.any (fun g => g.groupId == ch) then
    match removeFirstById st.forwardedHistory mid with
    | none =>
      if mapHasKey st.warningMap mid then
        (⟨st.forwardedHistory, mapDelete st.warningMap mid⟩, ⟨false, false, true⟩)
      else (st, noDelEffects)
    | some (e, rest) =>
      if mapHasKey st.warningMap mid then
        (⟨rest, mapDelete st.warningMap mid⟩, ⟨e.helperMessageId.isSome, true, true⟩)
      else (⟨rest, st.warningMap⟩, ⟨e.helperMessageId.isSome, true, false⟩)
  else (st, noDelEffects)

/-- A trace event: an inbound message with its external-call outcomes, or a
deletion notification. -/
inductive Event where
  | msg (m : Msg) (o : Oracle)
  | del (ch mid : List Char)
deriving DecidableEq

/-- One trace step (state portion). -/
def stepEvent (cfg : Config) (st : PluginState) : Event → PluginState
  | .msg m o => (onMessage cfg st m o).1
  | .del ch mid => (onDeleted cfg st ch mid).1

/-- Run a trace from the empty state. -/
def runTrace (cfg : Config) (tr : List Event) : PluginState :=
  tr.foldl (stepEvent cfg) initialState

/-- Message ids carried by the message events of a trace. -/
def msgIdsOf (tr : List Event) : List (List Char) :=
  tr.filterMap (fun e => match e with | .msg m _ => some m.messageId | .del _ _ => none)

/-! ## Bounded warning map of the part_002 variant -/

/-- The warning-map insertion of src/unnamed/part_002: set, then delete the
oldest key when the size exceeds the configured capacity. -/
def warnSetBounded (n : Nat) (m : List (List Char × List Char)) (k v : List Char) :
    List (List Char × List Char) :=
  if n < (mapSet m k v).length then
    match mapSet m k v with
    | [] => []
    | p :: t => mapDelete (p :: t) p.1
  else mapSet m k v

/-! ## Helper lemmas -/

/-- A span over a list that satisfies the predicate everywhere takes the
whole list. -/
theorem spanCh_all {p : Char → Bool} : ∀ {l : List Char}, (∀ c ∈ l, p c = true) →
    spanCh p l = (l, []) := by
  intro l
  induction l with
  | nil => intro _; rfl
  | cons c cs ih =>
    intro h
    have hc : p c = true := h c (by simp)
    have ht : spanCh p cs = (cs, []) := ih (fun x hx => h x (by simp [hx]))
    simp [spanCh, hc, ht]

/-- Entries of a history append with capacity eviction come from the old
history or are the new entry. -/
theorem recordEntry_mem {n : Nat} {h : List ForwardedEntry} {e a : ForwardedEntry}
    (ha : a ∈ recordEntry n h e) : a ∈ h ∨ a = e := by
  unfold recordEntry at ha
  split at ha
  · have : a ∈ h ++ [e] := List.mem_of_mem_tail ha
    simpa using this
  · simpa using ha

/-- The history append with capacity eviction preserves the capacity
bound. -/
theorem recordEntry_length_le {n : Nat} {h : List ForwardedEntry} (e : ForwardedEntry)
    (hle : h.length ≤ n) : (recordEntry n h e).length ≤ n := by
  unfold recordEntry
  split
  · simp only [List.length_tail, List.length_append, List.length_singleton]
    omega
  · rename_i hc
    simp only [List.length_append, List.length_singleton] at hc ⊢
    omega

/-- Removing the first entry with a given id yields a sublist. -/
theorem removeFirstById_sublist : ∀ {l : List ForwardedEntry} {mid : List Char}
    {e : ForwardedEntry} {rest : List ForwardedEntry},
    removeFirstById l mid = some (e, rest) → rest.Sublist l := by
  intro l
  induction l with
  | nil => intro mid e rest h; simp [removeFirstById] at h
  | cons x xs ih =>
    intro mid e rest h
    unfold removeFirstById at h
    split at h
    · cases h
      exact List.sublist_cons_self x xs
    · cases hr : removeFirstById xs mid with
      | none => rw [hr] at h; cases h
      | some pr =>
        rw [hr] at h
        cases h
        exact (ih hr).cons₂ x

/-- Number of live entries carrying a given source id. -/
def countById (l : List ForwardedEntry) (mid : List Char) : Nat :=
  (l.filter (fun e => e.originalMessageId == mid)).length

/-- When no entry carries the id, the removal finds nothing. -/
theorem removeFirstById_none_of_count_zero : ∀ {l : List ForwardedEntry} {mid : List Char},
    countById l mid = 0 → removeFirstById l mid = none := by
  intro l
  induction l with
  | nil => intro mid _; rfl
  | cons x xs ih =>
    intro mid h
    unfold countById at h
    by_cases hx : (x.originalMessageId == mid) = true
    · simp [List.filter, hx] at h
    · simp only [List.filter, hx] at h
      unfold removeFirstById
      rw [if_neg hx, ih h]

/-- Removing the first entry with the id lowers the count by one. -/
theorem countById_remove : ∀ {l : List ForwardedEntry} {mid : List Char}
    {e : ForwardedEntry} {rest : List ForwardedEntry},
    removeFirstById l mid = some (e, rest) → countById rest mid + 1 = countById l mid := by
  intro l
  induction l with
  | nil => intro mid e rest h; simp [removeFirstById] at h
  | cons x xs ih =>
    intro mid e rest h
    unfold removeFirstById at h
    split at h
    · cases h
      rename_i hx
      simp [countById, List.filter, hx]
    · rename_i hx
      cases hr : removeFirstById xs mid with
      | none => rw [hr] at h; cases h
      | some pr =>
        rw [hr] at h
        cases h
        have := ih hr
        simp only [countById, List.filter, hx] at *
        omega

/-- Pairs of a JS Map after set keep their key or carry the new key. -/
theorem mapSet_mem_fst {m : List (List Char × List Char)} {k v : List Char}
    {p : List Char × List Char} (hp : p ∈ mapSet m k v) :
    p.1 ∈ m.map Prod.fst ∨ p.1 = k := by
  unfold mapSet at hp
  split at hp
  · rcases List.mem_map.1 hp with ⟨q, hq, hqe⟩
    by_cases hk : (q.1 == k) = true
    · rw [if_pos hk] at hqe
      right; rw [← hqe]
    · rw [if_neg hk] at hqe
      left; rw [← hqe]; exact List.mem_map_of_mem _ hq
  · rcases List.mem_append.1 hp with h | h
    · left; exact List.mem_map_of_mem _ h
    · right; simp at h; rw [h]

/-- Map.set of a fresh key grows the map by one; of an existing key keeps
the length. -/
theorem mapSet_length (m : List (List Char × List Char)) (k v : List Char) :
    (mapSet m k v).length = m.length ∨ (mapSet m k v).length = m.length + 1 := by
  unfold mapSet
  split
  · left; simp
  · right; simp

/-- Deleting a key from a JS Map never grows it; when the head carries the
key, at least the head goes away. -/
theorem mapDelete_cons_length (p : List Char × List Char)
    (t : List (List Char × List Char)) :
    (mapDelete (p :: t) p.1).length ≤ t.length := by
  unfold mapDelete
  simp only [List.filter]
  have : (p.1 == p.1) = true := by simp
  rw [this]
  simpa using List.length_filter_le _ t

/-- Membership in the set-accumulation of extractAllRoomIds. -/
theorem mem_addUnique_self (acc : List (List Char)) (x : List Char) :
    x ∈ addUnique acc x := by
  unfold addUnique
  split
  · rename_i h
    rcases List.any_eq_true.1 h with ⟨y, hy, hyx⟩
    have : y = x := by simpa using hyx
    rw [← this]; exact hy
  · simp

theorem mem_addUnique_of_mem {acc : List (List Char)} {x : List Char} (y : List Char)
    (hx : x ∈ acc) : x ∈ addUnique acc y := by
  unfold addUnique
  split
  · exact hx
  · simp [hx]

theorem mem_foldl_addUnique_of_mem_acc : ∀ (l : List (List Char)) {acc : List (List Char)}
    {x : List Char}, x ∈ acc → x ∈ l.foldl addUnique acc := by
  intro l
  induction l with
  | nil => intro acc x hx; simpa using hx
  | cons y t ih =>
    intro acc x hx
    exact ih (mem_addUnique_of_mem y hx)

theorem mem_foldl_addUnique : ∀ {l : List (List Char)} {acc : List (List Char)}
    {x : List Char}, x ∈ l → x ∈ l.foldl addUnique acc := by
  intro l
  induction l with
  | nil => intro acc x hx; cases hx
  | cons y t ih =>
    intro acc x hx
    rcases List.mem_cons.1 hx with h | h
    · rw [h]
      exact mem_foldl_addUnique_of_mem_acc t (mem_addUnique_self acc y)
    · exact ih h

/-- Case analysis on one message-handler run: either the state is untouched,
or the duplicate path extended only the warning map under the message id,
or the forward path appended (with capacity eviction) one entry carrying
the message id whose room-time key was absent from the history. -/
theorem onMessage_shape (cfg : Config) (st : PluginState) (m : Msg) (o : Oracle) :
    (onMessage cfg st m o).1 = st ∨
    ((onMessage cfg st m o).1.forwardedHistory = st.forwardedHistory ∧
      ∃ wid, (onMessage cfg st m o).1.warningMap = mapSet st.warningMap m.messageId wid) ∨
    ((onMessage cfg st m o).1.warningMap = st.warningMap ∧
      ∃ e : ForwardedEntry, e.originalMessageId = m.messageId ∧
        st.forwardedHistory.any
          (fun x => x.roomId == e.roomId && x.dateTime == e.dateTime) = false ∧
        (onMessage cfg st m o).1.forwardedHistory =
          recordEntry cfg.historySize st.forwardedHistory e) := by
  unfold onMessage sendForward
  split
  · left; rfl
  · split
    · left; rfl
    · rename_i _gc _hfind roomId dateTime _hgate
      split
      · split
        · split
          · right; left
            exact ⟨rfl, _, rfl⟩
          · left; rfl
        · left; rfl
      · rename_i hdup
        rw [Bool.not_eq_true] at hdup
        split
        · left; rfl
        · split
          · split
            · left; rfl
            · rename_i hid _hhid
              split
              · left; rfl
              · rename_i fid _hfid
                right; right
                exact ⟨rfl, ⟨m.messageId, fid, hid, roomId, dateTime⟩, rfl, hdup, rfl⟩
          · split
            · left; rfl
            · rename_i fid _hfid
              right; right
              exact ⟨rfl, ⟨m.messageId, fid, none, roomId, dateTime⟩, rfl, hdup, rfl⟩

/-- One deletion-handler run only ever removes: both state components of the
result are sublists of the originals. -/
theorem onDeleted_sub (cfg : Config) (st : PluginState) (ch mid : List Char) :
    ((onDeleted cfg st ch mid).1.forwardedHistory).Sublist st.forwardedHistory ∧
    ((onDeleted cfg st ch mid).1.warningMap).Sublist st.warningMap := by
  unfold onDeleted
  split
  · split
    · split
      · exact ⟨List.Sublist.refl _, List.filter_sublist _⟩
      · exact ⟨List.Sublist.refl _, List.Sublist.refl _⟩
    · rename_i pr hr
      split
      · exact ⟨removeFirstById_sublist hr, List.filter_sublist _⟩
      · exact ⟨removeFirstById_sublist hr, List.Sublist.refl _⟩
  · exact ⟨List.Sublist.refl _, List.Sublist.refl _⟩

/-! ## Trace invariants -/

/-- Two history entries disagree on the dedupe key. -/
def KeyDistinct (a b : ForwardedEntry) : Prop :=
  ¬(a.roomId = b.roomId ∧ a.dateTime = b.dateTime)

/-- One step preserves pairwise key distinctness of the history. -/
theorem keyDistinct_step (cfg : Config) (st : PluginState) (ev : Event)
    (hp : st.forwardedHistory.Pairwise KeyDistinct) :
    ((stepEvent cfg st ev).forwardedHistory).Pairwise KeyDistinct := by
  cases ev with
  | msg m o =>
    rcases onMessage_shape cfg st m o with h | ⟨hh, _⟩ | ⟨_, e, _, hany, hh⟩
    · simp only [stepEvent, h]; exact hp
    · simp only [stepEvent, hh]; exact hp
    · simp only [stepEvent]
      rw [hh]
      have hall : ∀ x ∈ st.forwardedHistory, KeyDistinct x e := by
        intro x hx
        have h1 := (List.any_eq_false.1 hany) x hx
        simp only [Bool.and_eq_true, beq_iff_eq, not_and] at h1
        intro hc
        exact absurd (h1 hc.1) (by simp [hc.2])
      have hpa : (st.forwardedHistory ++ [e]).Pairwise KeyDistinct := by
        rw [List.pairwise_append]
        refine ⟨hp, by simp [List.Pairwise], ?_⟩
        intro a ha b hb
        have : b = e := by simpa using hb
        rw [this]
        exact hall a ha
      unfold recordEntry
      split
      · exact hpa.sublist (List.tail_sublist _)
      · exact hpa
  | del ch mid =>
    exact hp.sublist (onDeleted_sub cfg st ch mid).1

/-- All state-held ids stem from the given set of already-seen message
ids. -/
def stateIdsCovered (st : PluginState) (seen : List (List Char)) : Prop :=
  (∀ e ∈ st.forwardedHistory, e.originalMessageId ∈ seen) ∧
  (∀ p ∈ st.warningMap, p.1 ∈ seen)

/-- No id is simultaneously a live ledger source id and a pending-warning
key. -/
def IdsDisjoint (st : PluginState) : Prop :=
  ∀ i : List Char,
    ¬(i ∈ st.forwardedHistory.map ForwardedEntry.originalMessageId ∧
      i ∈ st.warningMap.map Prod.fst)

/-- A message step with a fresh id preserves coverage and disjointness. -/
theorem msg_step_inv (cfg : Config) (st : PluginState) (m : Msg) (o : Oracle)
    (seen : List (List Char)) (hfresh : m.messageId ∉ seen)
    (hc : stateIdsCovered st seen) (hd : IdsDisjoint st) :
    stateIdsCovered (onMessage cfg st m o).1 (seen ++ [m.messageId]) ∧
    IdsDisjoint (onMessage cfg st m o).1 := by
  rcases onMessage_shape cfg st m o with h | ⟨hh, wid, hw⟩ | ⟨hw, e, hid, _, hh⟩
  · rw [h]
    refine ⟨⟨fun e he => ?_, fun p hp => ?_⟩, hd⟩
    · exact List.mem_append_left _ (hc.1 e he)
    · exact List.mem_append_left _ (hc.2 p hp)
  · constructor
    · constructor
      · intro e he
        rw [hh] at he
        exact List.mem_append_left _ (hc.1 e he)
      · intro p hp
        rw [hw] at hp
        rcases mapSet_mem_fst hp with h1 | h1
        · rcases List.mem_map.1 h1 with ⟨q, hq, hqe⟩
          rw [← hqe]
          exact List.mem_append_left _ (hc.2 q hq)
        · rw [h1]; simp
    · intro i ⟨hi1, hi2⟩
      rw [hh] at hi1
      rw [hw] at hi2
      rcases List.mem_map.1 hi2 with ⟨p, hp, hpe⟩
      rcases mapSet_mem_fst hp with h1 | h1
      · exact hd i ⟨hi1, by rw [← hpe]; exact h1⟩
      · rcases List.mem_map.1 hi1 with ⟨q, hq, hqe⟩
        have h2 : q.originalMessageId ∈ seen := hc.1 q hq
        rw [hqe, ← hpe, h1] at h2
        exact hfresh h2
  · constructor
    · constructor
      · intro x hx
        rw [hh] at hx
        rcases recordEntry_mem hx with h1 | h1
        · exact List.mem_append_left _ (hc.1 x h1)
        · rw [h1, hid]; simp
      · intro p hp
        rw [hw] at hp
        exact List.mem_append_left _ (hc.2 p hp)
    · intro i ⟨hi1, hi2⟩
      rw [hw] at hi2
      rw [hh] at hi1
      rcases List.mem_map.1 hi1 with ⟨q, hq, hqe⟩
      rcases recordEntry_mem hq with h1 | h1
      · exact hd i ⟨by rw [← hqe]; exact List.mem_map_of_mem _ h1, hi2⟩
      · rcases List.mem_map.1 hi2 with ⟨p, hp, hpe⟩
        have hiseen : i ∈ seen := by rw [← hpe]; exact hc.2 p hp
        rw [← hqe, h1, hid] at hiseen
        exact hfresh hiseen

/-- A deletion step preserves coverage and disjointness. -/
theorem del_step_inv (cfg : Config) (st : PluginState) (ch mid : List Char)
    (seen : List (List Char)) (hc : stateIdsCovered st seen) (hd : IdsDisjoint st) :
    stateIdsCovered (onDeleted cfg st ch mid).1 seen ∧
    IdsDisjoint (onDeleted cfg st ch mid).1 := by
  obtain ⟨hs1, hs2⟩ := onDeleted_sub cfg st ch mid
  refine ⟨⟨fun e he => hc.1 e (hs1.subset he), fun p hp => hc.2 p (hs2.subset hp)⟩, ?_⟩
  intro i ⟨hi1, hi2⟩
  rcases List.mem_map.1 hi1 with ⟨q, hq, hqe⟩
  rcases List.mem_map.1 hi2 with ⟨p, hp, hpe⟩
  exact hd i ⟨by rw [← hqe]; exact List.mem_map_of_mem _ (hs1.subset hq),
              by rw [← hpe]; exact List.mem_map_of_mem _ (hs2.subset hp)⟩

/-- Trace induction carrying coverage and disjointness. -/
theorem trace_inv (cfg : Config) : ∀ (tr : List Event) (st : PluginState)
    (seen : List (List Char)), stateIdsCovered st seen → IdsDisjoint st →
    (∀ i ∈ msgIdsOf tr, i ∉ seen) → (msgIdsOf tr).Pairwise (· ≠ ·) →
    IdsDisjoint (tr.foldl (stepEvent cfg) st) := by
  intro tr
  induction tr with
  | nil => intro st seen hc hd _ _; exact hd
  | cons ev t ih =>
    intro st seen hc hd hfresh hpw
    cases ev with
    | msg m o =>
      have hmfresh : m.messageId ∉ seen := hfresh m.messageId (by simp [msgIdsOf])
      obtain ⟨hc2, hd2⟩ := msg_step_inv cfg st m o seen hmfresh hc hd
      have hids : msgIdsOf (Event.msg m o :: t) = m.messageId :: msgIdsOf t := by
        simp [msgIdsOf]
      rw [hids] at hfresh hpw
      refine ih _ (seen ++ [m.messageId]) hc2 hd2 ?_ hpw.of_cons
      · intro i hi
        simp only [List.mem_append, List.mem_singleton]
        rintro (h1 | h1)
        · exact hfresh i (by simp [hi]) h1
        · have := (List.pairwise_cons.1 hpw).1 i hi
          exact this h1.symm
    | del ch mid =>
      obtain ⟨hc2, hd2⟩ := del_step_inv cfg st ch mid seen hc hd
      have hids : msgIdsOf (Event.del ch mid :: t) = msgIdsOf t := by
        simp [msgIdsOf]
      rw [hids] at hfresh hpw
      exact ih _ seen hc2 hd2 hfresh hpw

/-! ## Concrete scenarios used by witnesses and counterexamples -/

/-- A monitored group with helper messages enabled. -/
def grpG : GroupCfg := ⟨"g".toList, true⟩

/-- A configuration monitoring that group with history capacity five. -/
def cfgMain : Config := ⟨[grpG], 5⟩

/-- A qualifying reward announcement: trigger keyword, unique room id,
reward amount. -/
def rewardText : List Char := "神金 房间号: 12345678 发3000".toList

/-- A qualifying message with the given id in the monitored group. -/
def mkMsg (id : List Char) : Msg := ⟨id, "g".toList, rewardText, rewardText⟩

/-- Oracle for a fully successful run: both lookups succeed with status
zero, the helper and the forward send succeed. -/
def okOracle : Oracle :=
  ⟨some ⟨0, some 1⟩, some ⟨0, some 7⟩, some "w0".toList,
   some (some "h1".toList), some (some "f1".toList), 0, 0⟩

/-- Oracle for a duplicate hit: only the warning send matters. -/
def warnOracle (w : List Char) : Oracle := ⟨none, none, some w, none, none, 0, 0⟩

/-- Oracle whose lookups both report a non-zero status code while carrying
complete data fields. -/
def badCodeOracle : Oracle :=
  ⟨some ⟨1, some 5⟩, some ⟨1, some 7⟩, none,
   some (some "h1".toList), some (some "f1".toList), 0, 0⟩

/-- Oracle whose first lookup lacks the uid field. -/
def noUidOracle : Oracle :=
  ⟨some ⟨0, none⟩, some ⟨0, some 7⟩, none,
   some (some "h1".toList), some (some "f1".toList), 0, 0⟩

/-- A state holding one forwarded entry for the reward text's room and time
key. -/
def stDup : PluginState :=
  ⟨[⟨"m0".toList, some "f1".toList, some "h1".toList, "12345678".toList, unknownLabel⟩], []⟩

/-- One successful forward followed by six duplicates of the same room and
time key, each answered with a warning message. -/
def dupTrace : List Event :=
  [Event.msg (mkMsg "m0".toList) okOracle,
   Event.msg (mkMsg "d1".toList) (warnOracle "w1".toList),
   Event.msg (mkMsg "d2".toList) (warnOracle "w2".toList),
   Event.msg (mkMsg "d3".toList) (warnOracle "w3".toList),
   Event.msg (mkMsg "d4".toList) (warnOracle "w4".toList),
   Event.msg (mkMsg "d5".toList) (warnOracle "w5".toList),
   Event.msg (mkMsg "d6".toList) (warnOracle "w6".toList)]

/-- A short trace for the disjointness witness: one forward, one duplicate,
one deletion. -/
def smallTrace : List Event :=
  [Event.msg (mkMsg "m0".toList) okOracle,
   Event.msg (mkMsg "d1".toList) (warnOracle "w1".toList),
   Event.del "g".toList "m0".toList]

/-! ## Claim theorems -/

/-- Claim C2: for every maximal run of supported Chinese numeral characters,
the numeral normalizer replaces the run by the decimal string of the value
computed by the digit, magnitude and section accumulator loop (a leading
magnitude ten with no preceding digit counts as one; a zero digit
contributes zero without resetting the section); in particular the run
of the ten word alone normalizes to 10, ten-one to 11, two-ten-three to
23 and one-thousand-zero-eight to 1008. The general conjunct covers a
text that is exactly one maximal run; the final conjunct shows a run
embedded in surrounding non-numeral text being replaced independently. -/
theorem claim2_numeral_normalizer :
    (∀ cs : List Char, cs ≠ [] → (∀ c ∈ cs, isNumeralChar c = true) →
      preprocessChineseNumerals cs = natToDigits (runValue cs)) ∧
    preprocessChineseNumerals "十".toList = "10".toList ∧
    preprocessChineseNumerals "十一".toList = "11".toList ∧
    preprocessChineseNumerals "二十三".toList = "23".toList ∧
    preprocessChineseNumerals "一千零八".toList = "1008".toList ∧
    preprocessChineseNumerals "第十一个".toList = "第11个".toList := by
  refine ⟨?_, by decide, by decide, by decide, by decide, by decide⟩
  intro cs hne hall
  match cs, hne with
  | [], h => exact absurd rfl h
  | c :: t, _ =>
    have hc : isNumeralChar c = true := hall c (by simp)
    have hspan : spanCh isNumeralChar (c :: t) = (c :: t, []) := spanCh_all hall
    show preprocessGo convertRunIdx ((c :: t).length + 1) (c :: t) = _
    rw [List.length_cons]
    unfold preprocessGo
    rw [if_pos hc, hspan]
    show convertRunIdx (c :: t) ++ preprocessGo convertRunIdx (t.length + 1) [] = _
    unfold preprocessGo
    rw [List.append_nil]
    match t, hall with
    | [], hall =>
      have hc2 : isNumeralChar c = true := hall c (by simp)
      have hstep : convertRunIdx [c] =
          if ((numMapVal c).isNone && (unitMapVal c).isNone) = true then [c]
          else natToDigits (runValue [c]) := rfl
      rw [hstep]
      unfold isNumeralChar at hc2
      rcases Bool.or_eq_true_iff.1 hc2 with h | h
      · rw [if_neg]
        simp only [Bool.and_eq_true, Option.isNone_iff_eq_none]
        intro hcon
        rw [hcon.1] at h
        simp [Option.isSome] at h
      · rw [if_neg]
        simp only [Bool.and_eq_true, Option.isNone_iff_eq_none]
        intro hcon
        rw [hcon.2] at h
        simp [Option.isSome] at h
    | d :: t2, _ => rfl

/-- Witness for claim C2: the general run statement applied to the
two-ten-three run. -/
theorem claim2_numeral_normalizer_witness :
    preprocessChineseNumerals "二十三".toList = natToDigits (runValue "二十三".toList) :=
  claim2_numeral_normalizer.1 "二十三".toList (by decide) (by decide)

/-- Claim C5: the time extractor tries its patterns in the documented fixed
precedence order (month-day, every-night, month-third, hour-minute,
half-past, lone hour, minutes-only, keyword line) and returns the first
match, null otherwise; and the three documented examples normalize as
stated for every wall-clock reading. -/
theorem claim5_time_extractor :
    (∀ (nowH nowM : Nat) (line : List Char),
      extractDateTime nowH nowM line = firstSome (dtPatterns nowH nowM) line) ∧
    (∀ nowH nowM : Nat,
      extractDateTime nowH nowM "11月28日直播".toList = some "11月28日".toList) ∧
    (∀ nowH nowM : Nat,
      extractDateTime nowH nowM "每晚11点抽奖".toList = some "每晚 11:00".toList) ∧
    (∀ nowH nowM : Nat,
      extractDateTime nowH nowM "23点半开始".toList = some "23:30".toList) := by
  refine ⟨?_, fun _ _ => rfl, fun _ _ => rfl, fun _ _ => rfl⟩
  intro nowH nowM line
  unfold extractDateTime firstSome dtPatterns
  simp only [findSomeL]
  cases matchMonthDay line with
  | some r => rfl
  | none =>
  cases matchEveryNight line with
  | some r => rfl
  | none =>
  cases matchMonthPart line with
  | some r => rfl
  | none =>
  cases matchHourMinute line with
  | some r => rfl
  | none =>
  cases matchHalfPast line with
  | some r => rfl
  | none =>
  cases matchLoneHour line with
  | some r => rfl
  | none =>
  cases matchMinutesOnly nowH nowM line with
  | some r => rfl
  | none =>
  cases matchKeywordLine line with
  | some r => rfl
  | none => rfl

/-- Claim C1: over every event trace from the empty state, at most one live
ledger entry exists per distinct room-id and date-time pair (the history
is pairwise key distinct); and whenever a message passes the group gate
and every admission gate while its key is already live, the handler
suppresses it before enrichment and forwarding: the history is unchanged,
no lookup and no forward is attempted, nothing is recorded (at most a
duplicate notice is sent). -/
theorem claim1_dedupe_invariant :
    (∀ (cfg : Config) (tr : List Event),
      ((runTrace cfg tr).forwardedHistory).Pairwise KeyDistinct) ∧
    (∀ (cfg : Config) (st : PluginState) (m : Msg) (o : Oracle) (gc : GroupCfg)
      (rid dt : List Char),
      findGroupCfg cfg m.channelId = some gc →
      gateRoomAndEvent m o.nowH o.nowM = some (rid, dt) →
      st.forwardedHistory.any (fun e => e.roomId == rid && e.dateTime == dt) = true →
      (onMessage cfg st m o).1.forwardedHistory = st.forwardedHistory ∧
      (onMessage cfg st m o).2.attemptedFetch = false ∧
      (onMessage cfg st m o).2.attemptedForward = false ∧
      (onMessage cfg st m o).2.recorded = false) := by
  constructor
  · intro cfg tr
    have h : ∀ (t : List Event) (st : PluginState),
        st.forwardedHistory.Pairwise KeyDistinct →
        ((t.foldl (stepEvent cfg) st).forwardedHistory).Pairwise KeyDistinct := by
      intro t
      induction t with
      | nil => intro st hst; exact hst
      | cons e tt ih => intro st hst; exact ih _ (keyDistinct_step cfg st e hst)
    exact h tr initialState (by simp [initialState])
  · intro cfg st m o gc rid dt hfind hgate hdup
    unfold onMessage
    simp only [hfind, hgate]
    rw [if_pos hdup]
    split
    · split <;> exact ⟨rfl, rfl, rfl, rfl⟩
    · exact ⟨rfl, rfl, rfl, rfl⟩

/-- Witness for claim C1: a duplicate of the already-recorded key in stDup
is suppressed with the history unchanged and no fetch, forward or
record. -/
theorem claim1_dedupe_invariant_witness :
    (onMessage cfgMain stDup (mkMsg "m9".toList) okOracle).1.forwardedHistory =
      stDup.forwardedHistory ∧
    (onMessage cfgMain stDup (mkMsg "m9".toList) okOracle).2.attemptedFetch = false ∧
    (onMessage cfgMain stDup (mkMsg "m9".toList) okOracle).2.attemptedForward = false ∧
    (onMessage cfgMain stDup (mkMsg "m9".toList) okOracle).2.recorded = false :=
  claim1_dedupe_invariant.2 cfgMain stDup (mkMsg "m9".toList) okOracle grpG
    "12345678".toList unknownLabel (by decide) (by decide) (by decide)

/-- No-eviction run of the bounded append: while the capacity is not
exceeded, folding the append is a plain append. -/
theorem foldl_recordEntry_no_evict : ∀ (es acc : List ForwardedEntry) (n : Nat),
    acc.length + es.length ≤ n → List.foldl (recordEntry n) acc es = acc ++ es := by
  intro es
  induction es with
  | nil => intro acc n _; simp
  | cons e t ih =>
    intro acc n hle
    have h1 : recordEntry n acc e = acc ++ [e] := by
      unfold recordEntry
      rw [if_neg]
      simp only [List.length_append, List.length_cons, List.length_nil] at hle ⊢
      omega
    simp only [List.foldl_cons, h1]
    have h2 := ih (acc ++ [e]) n (by
      simp only [List.length_append, List.length_cons, List.length_nil] at hle ⊢
      omega)
    rw [h2]
    simp

/-- Claim C6: every handler step preserves the capacity bound on the live
history; appending onto a full history of length N evicts exactly the
oldest entry; and pushing N plus one entries into an empty ledger leaves
exactly the last N, the first-pushed entry gone. -/
theorem claim6_capacity :
    (∀ (cfg : Config) (st : PluginState) (ev : Event),
      (st.forwardedHistory).length ≤ cfg.historySize →
      ((stepEvent cfg st ev).forwardedHistory).length ≤ cfg.historySize) ∧
    (∀ (n : Nat) (h : List ForwardedEntry) (e : ForwardedEntry), h.length = n →
      recordEntry n h e = (h ++ [e]).drop 1) ∧
    (∀ (n : Nat) (es : List ForwardedEntry), es.length = n + 1 →
      List.foldl (recordEntry n) [] es = es.drop 1 ∧
      (List.foldl (recordEntry n) [] es).length = n) := by
  refine ⟨?_, ?_, ?_⟩
  · intro cfg st ev hle
    cases ev with
    | msg m o =>
      rcases onMessage_shape cfg st m o with h | ⟨hh, _⟩ | ⟨_, e, _, _, hh⟩
      · simp only [stepEvent, h]; exact hle
      · simp only [stepEvent, hh]; exact hle
      · simp only [stepEvent]; rw [hh]; exact recordEntry_length_le e hle
    | del ch mid =>
      exact le_trans ((onDeleted_sub cfg st ch mid).1.length_le) hle
  · intro n h e hlen
    unfold recordEntry
    rw [if_pos (by simp [hlen])]
    rw [← List.drop_one]
  · intro n es hlen
    have hne : es ≠ [] := by
      intro h
      rw [h] at hlen
      simp at hlen
    have hdl : es.dropLast.length = n := by
      rw [List.length_dropLast, hlen]
      rfl
    have hmain : List.foldl (recordEntry n) [] es = es.drop 1 := by
      conv_lhs => rw [← List.dropLast_append_getLast hne]
      rw [List.foldl_append]
      rw [foldl_recordEntry_no_evict es.dropLast [] n (by simp [hdl])]
      simp only [List.foldl_cons, List.foldl_nil, List.nil_append]
      unfold recordEntry
      rw [if_pos (by simp [hdl])]
      conv_rhs => rw [← List.dropLast_append_getLast hne]
      rw [← List.drop_one]
    refine ⟨hmain, ?_⟩
    rw [hmain, List.length_drop, hlen]
    omega

/-- A sample ledger entry. -/
def entA : ForwardedEntry := ⟨"a".toList, none, none, "1".toList, "2".toList⟩

/-- Another sample ledger entry. -/
def entB : ForwardedEntry := ⟨"b".toList, none, none, "3".toList, "4".toList⟩

/-- Witness for claim C6: a step on a one-entry history within capacity
stays within capacity; appending onto a full history of length one drops
the head; two pushes into an empty capacity-one ledger keep the last
one. -/
theorem claim6_capacity_witness :
    ((stepEvent cfgMain stDup (Event.msg (mkMsg "m9".toList) okOracle)).forwardedHistory).length
      ≤ cfgMain.historySize ∧
    recordEntry 1 stDup.forwardedHistory entA =
      (stDup.forwardedHistory ++ [entA]).drop 1 ∧
    List.foldl (recordEntry 1) [] [entA, entB] = [entA, entB].drop 1 :=
  ⟨claim6_capacity.1 cfgMain stDup (Event.msg (mkMsg "m9".toList) okOracle) (by decide),
   claim6_capacity.2.1 1 stDup.forwardedHistory entA (by decide),
   (claim6_capacity.2.2 1 [entA, entB] (by decide)).1⟩

/-- Counterexample to claim C3: on text with exactly two generic candidates
of unequal length, neither of which is a recognized reward amount, the
extractor returns both candidates, not only the longer one — no
reward-amount exclusion and no longest tie-break exists in the code. -/
theorem claim3_stages_counterexample :
    extractAllRoomIds "123456 1234567".toList = ["123456".toList, "1234567".toList] ∧
    extractRewards "123456 1234567".toList = [] ∧
    extractAllRoomIds "123456 1234567".toList ≠ ["1234567".toList] :=
  ⟨by decide, by decide, by decide⟩

/-- Amended claim C3: when the generic stage yields candidates, the
extractor keeps every distinct one (no reward-amount exclusion, no
longest tie-break); in particular two generic candidates of unequal
length are both returned (and the caller then drops the message for
having more than one candidate). -/
theorem claim3_all_candidates :
    (∀ (t s : List Char), s ∈ matchAll tryGenericAt (sanitizeTags t) →
      s ∈ extractAllRoomIds t) ∧
    extractAllRoomIds "123456 1234567".toList = ["123456".toList, "1234567".toList] := by
  constructor
  · intro t s hs
    exact mem_foldl_addUnique (List.mem_append_right _ hs)
  · decide

/-- Witness for amended claim C3 at a concrete candidate. -/
theorem claim3_all_candidates_witness :
    "123456".toList ∈ extractAllRoomIds "123456 1234567".toList :=
  claim3_all_candidates.1 "123456 1234567".toList "123456".toList (by decide)

/-- A line that announces the same qualifying amount twice. -/
def dupRewardLine : List Char := "发3000神金发3000神金".toList

/-- Counterexample to claim C4: a line containing the same qualifying amount
twice yields two Reward entries for that amount, not one — the extractor
performs no deduplication. -/
theorem claim4_dedup_counterexample :
    extractRewards dupRewardLine =
      [⟨mkRat 3000 1, "无限制".toList⟩, ⟨mkRat 3000 1, "无限制".toList⟩] ∧
    (extractRewards dupRewardLine).length ≠ 1 :=
  ⟨by decide, by decide⟩

/-- Amended claim C4: within one extraction call every qualifying match
emits its own Reward entry even when the amount value was already
emitted, so duplicate amounts on one line yield duplicate entries; a
single qualifying match still yields exactly one entry with its
condition label. -/
theorem claim4_no_dedup :
    extractRewards dupRewardLine =
      [⟨mkRat 3000 1, "无限制".toList⟩, ⟨mkRat 3000 1, "无限制".toList⟩] ∧
    extractRewards "14级灯牌发2w".toList = [⟨mkRat 20000 1, "14级灯牌".toList⟩] ∧
    extractRewards "神金3000".toList = [⟨mkRat 3000 1, "无限制".toList⟩] :=
  ⟨by decide, by decide, by decide⟩

/-- Counterexample to claim C7: in the final variant, a trace of one forward
followed by six duplicate warnings leaves six pending-warning entries in
a configuration with history capacity five — the mapping is not bounded
by the configured history size. -/
theorem claim7_unbounded_counterexample :
    cfgMain.historySize = 5 ∧
    cfgMain.historySize < ((runTrace cfgMain dupTrace).warningMap).length :=
  ⟨rfl, by decide⟩

/-- Amended claim C7: only the part_002 variant bounds the pending-warning
mapping: its insertion (set, then delete the oldest key when the size
exceeds the capacity) preserves the size bound. In the final variant the
mapping grows by one entry per warning and shrinks only on explicit
deletion events, so its size is not capped by the history size. -/
theorem claim7_bounded_in_part002 :
    ∀ (n : Nat) (m : List (List Char × List Char)) (k v : List Char),
      m.length ≤ n → (warnSetBounded n m k v).length ≤ n := by
  intro n m k v hle
  unfold warnSetBounded
  split
  · split
    · simp
    · rename_i hlt p t heq
      have hlen : (mapSet m k v).length ≤ n + 1 := by
        rcases mapSet_length m k v with h | h <;> omega
      have hlen2 : (p :: t).length ≤ n + 1 := by rw [heq] at hlen; exact hlen
      simp only [List.length_cons] at hlen2
      exact le_trans (mapDelete_cons_length p t) (by omega)
  · rename_i h
    exact Nat.le_of_not_lt h

/-- Witness for amended claim C7 at a concrete full map. -/
theorem claim7_bounded_in_part002_witness :
    (warnSetBounded 1 [("a".toList, "b".toList)] "c".toList "d".toList).length ≤ 1 :=
  claim7_bounded_in_part002 1 [("a".toList, "b".toList)] "c".toList "d".toList (by decide)

/-- Counterexample to claim C8: both lookups answer with a non-zero status
code, yet because the cited code never consults the status code the
message is still forwarded and recorded — a lookup that fails in the
sense of the claim (non-zero response code) does not abort processing. -/
theorem claim8_code_ignored_counterexample :
    badCodeOracle.roomResp = some ⟨1, some 5⟩ ∧
    badCodeOracle.statsResp = some ⟨1, some 7⟩ ∧
    (1 : Int) ≠ 0 ∧
    (onMessage cfgMain initialState (mkMsg "m1".toList) badCodeOracle).2.attemptedForward = true ∧
    ((onMessage cfgMain initialState (mkMsg "m1".toList) badCodeOracle).1.forwardedHistory).length = 1 :=
  ⟨rfl, rfl, by decide, by decide, by decide⟩

/-- Amended claim C8: for every message that reaches the enrichment step
(admission gates passed, key not yet live), when the lookup fails — a
missing or falsy uid, a missing video field, or a transport error at
either step; the response status code is not consulted — processing
aborts: the state (ledger and pending-warning map) is unchanged, no
helper message and no forward is dispatched, nothing is recorded, and
the handler returns normally (the failure is caught inside the fetch). -/
theorem claim8_abort_on_failure :
    ∀ (cfg : Config) (st : PluginState) (m : Msg) (o : Oracle) (gc : GroupCfg)
      (rid dt : List Char),
      findGroupCfg cfg m.channelId = some gc →
      gateRoomAndEvent m o.nowH o.nowM = some (rid, dt) →
      st.forwardedHistory.any (fun e => e.roomId == rid && e.dateTime == dt) = false →
      fetchBilibiliInfo o = none →
      (onMessage cfg st m o).1 = st ∧
      (onMessage cfg st m o).2 = { noEffects with attemptedFetch := true } := by
  intro cfg st m o gc rid dt hfind hgate hdup hfetch
  unfold onMessage
  simp only [hfind, hgate, hfetch]
  rw [if_neg (by simp [hdup])]
  exact ⟨rfl, rfl⟩

/-- Witness for amended claim C8: a missing uid field aborts with the state
unchanged. -/
theorem claim8_abort_on_failure_witness :
    (onMessage cfgMain initialState (mkMsg "m1".toList) noUidOracle).1 = initialState ∧
    (onMessage cfgMain initialState (mkMsg "m1".toList) noUidOracle).2 =
      { noEffects with attemptedFetch := true } :=
  claim8_abort_on_failure cfgMain initialState (mkMsg "m1".toList) noUidOracle grpG
    "12345678".toList unknownLabel (by decide) (by decide) (by decide) (by decide)

/-- Deleting a key removes it from the JS Map. -/
theorem mapHasKey_delete (m : List (List Char × List Char)) (k : List Char) :
    mapHasKey (mapDelete m k) k = false := by
  unfold mapHasKey mapDelete
  rw [List.any_eq_false]
  intro p hp
  have h := (List.mem_filter.1 hp).2
  simp only [Bool.not_eq_eq_eq_not, Bool.not_true, beq_eq_false_iff_ne, ne_eq] at h
  simp only [beq_iff_eq]
  exact h

/-- Claim C9: on a monitored channel, when a deletion notification matches a
live entry, the handler removes exactly that (first) entry from the
ledger while attempting the forwarded-copy retraction unconditionally
and the helper retraction exactly when a helper id is recorded — the
attempts recorded in the effects do not depend on each other's outcomes,
which the state transition ignores entirely; and when the id occurs at
most once, a second notification for the same id is a no-op: state
unchanged, nothing retracted. -/
theorem claim9_retraction :
    ∀ (cfg : Config) (st : PluginState) (ch mid : List Char),
      cfg.monitorGroups.any (fun g => g.groupId == ch) = true →
      (∀ (e : ForwardedEntry) (rest : List ForwardedEntry),
        removeFirstById st.forwardedHistory mid = some (e, rest) →
        (onDeleted cfg st ch mid).1.forwardedHistory = rest ∧
        (onDeleted cfg st ch mid).2.attemptedForwardDelete = true ∧
        (onDeleted cfg st ch mid).2.attemptedHelperDelete = e.helperMessageId.isSome) ∧
      (countById st.forwardedHistory mid ≤ 1 →
        onDeleted cfg (onDeleted cfg st ch mid).1 ch mid =
          ((onDeleted cfg st ch mid).1, noDelEffects)) := by
  intro cfg st ch mid hmon
  constructor
  · intro e rest hrm
    unfold onDeleted
    rw [if_pos hmon]
    simp only [hrm]
    split <;> exact ⟨rfl, rfl, rfl⟩
  · intro hcount
    cases hrm : removeFirstById st.forwardedHistory mid with
    | none =>
      by_cases hk : mapHasKey st.warningMap mid = true
      · have h1 : (onDeleted cfg st ch mid).1 =
            ⟨st.forwardedHistory, mapDelete st.warningMap mid⟩ := by
          unfold onDeleted
          rw [if_pos hmon]
          simp only [hrm]
          rw [if_pos hk]
        rw [h1]
        unfold onDeleted
        rw [if_pos hmon]
        dsimp only
        simp only [hrm]
        rw [if_neg (by simp [mapHasKey_delete])]
      · have hkf : ¬(mapHasKey st.warningMap mid = true) := hk
        have h1 : (onDeleted cfg st ch mid).1 = st := by
          unfold onDeleted
          rw [if_pos hmon]
          simp only [hrm]
          rw [if_neg hkf]
        rw [h1]
        unfold onDeleted
        rw [if_pos hmon]
        simp only [hrm]
        rw [if_neg hkf]
    | some pr =>
      obtain ⟨e, rest⟩ := pr
      have hrest0 : countById rest mid = 0 := by
        have := countById_remove hrm
        omega
      have hrestnone : removeFirstById rest mid = none :=
        removeFirstById_none_of_count_zero hrest0
      by_cases hk : mapHasKey st.warningMap mid = true
      · have h1 : (onDeleted cfg st ch mid).1 =
            ⟨rest, mapDelete st.warningMap mid⟩ := by
          unfold onDeleted
          rw [if_pos hmon]
          simp only [hrm]
          rw [if_pos hk]
        rw [h1]
        unfold onDeleted
        rw [if_pos hmon]
        dsimp only
        simp only [hrestnone]
        rw [if_neg (by simp [mapHasKey_delete])]
      · have hkf : ¬(mapHasKey st.warningMap mid = true) := hk
        have h1 : (onDeleted cfg st ch mid).1 = ⟨rest, st.warningMap⟩ := by
          unfold onDeleted
          rw [if_pos hmon]
          simp only [hrm]
          rw [if_neg hkf]
        rw [h1]
        unfold onDeleted
        rw [if_pos hmon]
        dsimp only
        simp only [hrestnone]
        rw [if_neg hkf]

/-- The single entry held by stDup. -/
def entM0 : ForwardedEntry :=
  ⟨"m0".toList, some "f1".toList, some "h1".toList, "12345678".toList, unknownLabel⟩

/-- Witness for claim C9: deleting the only entry retracts and removes it;
deleting again is a no-op. -/
theorem claim9_retraction_witness :
    ((onDeleted cfgMain stDup "g".toList "m0".toList).1.forwardedHistory = [] ∧
     (onDeleted cfgMain stDup "g".toList "m0".toList).2.attemptedForwardDelete = true ∧
     (onDeleted cfgMain stDup "g".toList "m0".toList).2.attemptedHelperDelete =
       entM0.helperMessageId.isSome) ∧
    onDeleted cfgMain (onDeleted cfgMain stDup "g".toList "m0".toList).1 "g".toList "m0".toList =
      ((onDeleted cfgMain stDup "g".toList "m0".toList).1, noDelEffects) := by
  have h := claim9_retraction cfgMain stDup "g".toList "m0".toList (by decide)
  exact ⟨h.1 entM0 [] (by decide), h.2 (by decide)⟩

/-- Claim C10: over every trace whose inbound messages carry pairwise
distinct ids, no id is simultaneously the source id of a live ledger
entry and a key of the pending-warning map — a warning entry is recorded
only on the duplicate path which returns before forwarding, and a ledger
entry only on the forwarding path which sends no warning, so the two
retraction cases of the deletion handler are mutually exclusive for
every id. -/
theorem claim10_disjoint_ids :
    ∀ (cfg : Config) (tr : List Event), (msgIdsOf tr).Pairwise (· ≠ ·) →
    ∀ i : List Char,
      ¬(i ∈ (runTrace cfg tr).forwardedHistory.map ForwardedEntry.originalMessageId ∧
        i ∈ (runTrace cfg tr).warningMap.map Prod.fst) := by
  intro cfg tr hpw
  exact trace_inv cfg tr initialState []
    ⟨by intro e he; simp [initialState] at he, by intro p hp; simp [initialState] at hp⟩
    (by intro i hi; simp [initialState] at hi)
    (by intro i _; simp)
    hpw

/-- Witness for claim C10 on a concrete trace: one forward, one duplicate
warning, one deletion; the forwarded id is in neither structure twice. -/
theorem claim10_disjoint_ids_witness :
    ¬("m0".toList ∈ (runTrace cfgMain smallTrace).forwardedHistory.map
        ForwardedEntry.originalMessageId ∧
      "m0".toList ∈ (runTrace cfgMain smallTrace).warningMap.map Prod.fst) :=
  claim10_disjoint_ids cfgMain smallTrace (by decide) "m0".toList

end CatRaising
